import Mathlib

/-!
Shallow embedding of the `core2048` board engine (`src/core/Game.cpp`,
`src/core/Game.hpp`) and of the leaderboard store (`src/core/ScoreManager.cpp`),
together with theorems settling the frozen claims about them.

Machine integers: the C++ grid cells and scores are `int` and are embedded as
`Int`; the `std::mt19937` words are 32-bit and are embedded as `Nat` reduced
modulo `2 ^ 32` at every step that can overflow.
-/

namespace Core2048

/-- State of the `std::mt19937` generator used by the engine: the 624-word
state array and the current read index (`mti`). Words are 32-bit values kept as
`Nat` below `2 ^ 32`. -/
structure MTState where
  mt : List Nat
  index : Nat
deriving DecidableEq

/-- Initialisation recurrence of `std::mt19937::seed`: builds the `k` words
following a word `prev` at position `i - 1`, each
`mt[i] = (1812433253 * (mt[i-1] xor (mt[i-1] >> 30)) + i) mod 2^32`. -/
def mtSeedAux : Nat → Nat → Nat → List Nat
  | 0, _, _ => []
  | k + 1, i, prev =>
    let cur := (1812433253 * (prev ^^^ (prev >>> 30)) + i) % 2 ^ 32
    cur :: mtSeedAux k (i + 1) cur

/-- `rng_.seed(seed)`: word 0 is the seed, the remaining 623 words follow the
seeding recurrence, and the read index starts at 624 (state exhausted, so the
first extraction twists). -/
def mtSeed (seed : Nat) : MTState :=
  let s0 := seed % 2 ^ 32
  { mt := s0 :: mtSeedAux 623 1 s0, index := 624 }

/-- One in-place step of the mt19937 twist at position `i`
(constants 0x80000000, 0x7fffffff, 0x9908B0DF in decimal). -/
def twistAt (m : List Nat) (i : Nat) : List Nat :=
  let x := ((m.getD i 0) &&& 2147483648) + ((m.getD ((i + 1) % 624) 0) &&& 2147483647)
  let xA0 := x >>> 1
  let xA := if x % 2 = 1 then xA0 ^^^ 2567483615 else xA0
  m.set i ((m.getD ((i + 397) % 624) 0) ^^^ xA)

/-- The full mt19937 twist: sequential in-place update of all 624 words. -/
def twist (m : List Nat) : List Nat :=
  (List.range 624).foldl twistAt m

/-- The mt19937 tempering of one raw word (constants 0xFFFFFFFF, 0x9D2C5680,
0xEFC60000 in decimal; shifts 11, 7, 15, 18). -/
def temper (y0 : Nat) : Nat :=
  let y1 := y0 ^^^ ((y0 >>> 11) &&& 4294967295)
  let y2 := y1 ^^^ ((y1 <<< 7) &&& 2636928640)
  let y3 := y2 ^^^ ((y2 <<< 15) &&& 4022730752)
  y3 ^^^ (y3 >>> 18)

/-- `rng_()`: twist when the state is exhausted, then temper the word at the
read index and advance the index. -/
def mtNext (s : MTState) : Nat × MTState :=
  let s1 := if 624 ≤ s.index then { mt := twist s.mt, index := 0 } else s
  (temper (s1.mt.getD s1.index 0), { mt := s1.mt, index := s1.index + 1 })

/-- `range` in `nextBounded`: `mt19937::max() + 1 = 2 ^ 32`. -/
def mtRange : Nat := 2 ^ 32

/-- The rejection loop of `nextBounded`, modelled with explicit fuel (the
source's do-while has no bound; the fuel-exhaustion fallback `(0, rng)` is
never reached at the inputs arising in this development). Draws a raw value,
accepts it when below `limit` and returns `value / bucketSize`, otherwise
redraws. -/
def nextBoundedLoop : Nat → MTState → Nat → Nat → Nat × MTState
  | 0, rng, _, _ => (0, rng)
  | fuel + 1, rng, bucketSize, limit =>
    let d := mtNext rng
    if d.1 < limit then (d.1 / bucketSize, d.2)
    else nextBoundedLoop fuel d.2 bucketSize limit

/-- Fuel given to the modelled rejection loop. -/
def rejectionFuel : Nat := 1000

/-- `nextBounded(rng, upperExclusive)` from `Game.cpp`: 0 when the bound is 0;
otherwise rejection sampling with `bucketSize = range / n` and
`rejectionLimit = bucketSize * n`. -/
def nextBounded (rng : MTState) (upperExclusive : Nat) : Nat × MTState :=
  if upperExclusive = 0 then (0, rng)
  else
    let bucketSize := mtRange / upperExclusive
    let rejectionLimit := bucketSize * upperExclusive
    nextBoundedLoop rejectionFuel rng bucketSize rejectionLimit

/-- `core2048::Direction`. -/
inductive Direction where
  | Up
  | Down
  | Left
  | Right
deriving DecidableEq

/-- `core2048::SpawnedTile`. -/
structure SpawnedTile where
  row : Nat
  col : Nat
  value : Int
deriving DecidableEq

/-- `core2048::MoveResult`. -/
structure MoveResult where
  moved : Bool
  scoreDelta : Int
  spawnedTile : Option SpawnedTile
deriving DecidableEq

/-- `Game::LineResult`. -/
structure LineResult where
  values : List Int
  moved : Bool
  scoreDelta : Int
deriving DecidableEq

/-- The zero-compaction loop of `slideAndMergeLine`: keep the non-zero cells in
order. -/
def compactLine (line : List Int) : List Int :=
  line.filter (fun v => v ≠ 0)

/-- The merge scan of `slideAndMergeLine` over the compacted cells: equal
adjacent cells become one doubled cell, the doubled value is added to the score
delta, and the scan advances past both source cells. Returns the merged cells
and the score delta. -/
def mergePass : List Int → List Int × Int
  | x :: y :: rest =>
    if x = y then
      let p := mergePass rest
      (x * 2 :: p.1, p.2 + x * 2)
    else
      let p := mergePass (y :: rest)
      (x :: p.1, p.2)
  | l => (l, 0)

/-- Re-padding of the merged cells with trailing zeros: the source writes the
merged cells into a zero-initialised array of 4 cells. -/
def padLine (l : List Int) : List Int :=
  l ++ List.replicate (4 - l.length) 0

/-- `Game::slideAndMergeLine`: compact, merge, pad; `moved` compares the padded
result with the input line. -/
def slideAndMergeLine (line : List Int) : LineResult :=
  let compact := compactLine line
  let p := mergePass compact
  let values := padLine p.1
  { values := values, moved := decide (values ≠ line), scoreDelta := p.2 }

/-- One application of `applyToRow`/`applyToCol` to a single line: the line is
read in reversed order when `reverse` is set, slid and merged, and written back
in the same order. `moved` and `scoreDelta` come from the `LineResult` computed
on the line as read. -/
def applyLine (reverse : Bool) (line : List Int) : LineResult :=
  let input := if reverse then line.reverse else line
  let r := slideAndMergeLine input
  { values := if reverse then r.values.reverse else r.values,
    moved := r.moved, scoreDelta := r.scoreDelta }

/-- Aggregate outcome of sliding all lines of a grid: the written-back grid,
the or of the per-line moved flags, and the sum of the per-line score deltas. -/
structure SlideOutcome where
  grid : List (List Int)
  moved : Bool
  scoreDelta : Int
deriving DecidableEq

/-- The per-row loop of `applyMove` for `Left` (`reverse = false`) and `Right`
(`reverse = true`): each row is processed independently. -/
def slideRows (reverse : Bool) (g : List (List Int)) : SlideOutcome :=
  let results := g.map (applyLine reverse)
  { grid := results.map (fun r => r.values),
    moved := results.any (fun r => r.moved),
    scoreDelta := (results.map (fun r => r.scoreDelta)).sum }

/-- Column `j` of the grid as read by `applyToCol`: entry `r` is
`grid[r][j]`. -/
def colOf (g : List (List Int)) (j : Nat) : List Int :=
  g.map (fun row => row.getD j 0)

/-- The four columns of a 4x4 grid as rows; `applyToCol` over all columns is
`applyToRow` over all rows of this transposed view, written back by transposing
again. -/
def transpose4 (g : List (List Int)) : List (List Int) :=
  [colOf g 0, colOf g 1, colOf g 2, colOf g 3]

/-- Direction dispatch of `applyMove`: rows forward for `Left`, rows reversed
for `Right`, columns (the transposed rows) forward for `Up` and reversed for
`Down`. -/
def slideGrid : Direction → List (List Int) → SlideOutcome
  | Direction.Left, g => slideRows false g
  | Direction.Right, g => slideRows true g
  | Direction.Up, g =>
    let o := slideRows false (transpose4 g)
    { grid := transpose4 o.grid, moved := o.moved, scoreDelta := o.scoreDelta }
  | Direction.Down, g =>
    let o := slideRows true (transpose4 g)
    { grid := transpose4 o.grid, moved := o.moved, scoreDelta := o.scoreDelta }

/-- The full engine state: grid, score and the RNG stream owned by the engine. -/
structure GameState where
  grid : List (List Int)
  score : Int
  rng : MTState
deriving DecidableEq

/-- `grid_[row][col] = v`. -/
def setCell (g : List (List Int)) (r c : Nat) (v : Int) : List (List Int) :=
  g.set r ((g.getD r []).set c v)

/-- The row-major empty-cell collection loop of `spawnTile`. -/
def emptyCellsOf (g : List (List Int)) : List (Nat × Nat) :=
  (List.range 4).flatMap (fun r =>
    (List.range 4).filterMap (fun c =>
      if (g.getD r []).getD c 0 = 0 then some (r, c) else none))

/-- `Game::spawnTile`: no spawn on a full board; otherwise a bounded draw picks
the cell among the empties, a second bounded draw from `[0, 10)` picks value 4
exactly when it is 0 and value 2 otherwise, and the value is written into the
chosen cell. -/
def spawnTile (s : GameState) : Option SpawnedTile × GameState :=
  let cells := emptyCellsOf s.grid
  if cells.isEmpty then (none, s)
  else
    let d1 := nextBounded s.rng cells.length
    let cell := cells.getD d1.1 (0, 0)
    let d2 := nextBounded d1.2 10
    let v : Int := if d2.1 = 0 then 4 else 2
    (some { row := cell.1, col := cell.2, value := v },
     { grid := setCell s.grid cell.1 cell.2 v, score := s.score, rng := d2.2 })

/-- `Game::applyMove`: slide all lines; on no movement return the zero
`MoveResult` with the written-back (unchanged) grid; on movement commit the
score delta and, when `spawnOnMove` is set, spawn one tile. -/
def applyMove (dir : Direction) (spawnOnMove : Bool) (s : GameState) :
    MoveResult × GameState :=
  let o := slideGrid dir s.grid
  if o.moved then
    let s1 : GameState := { grid := o.grid, score := s.score + o.scoreDelta, rng := s.rng }
    if spawnOnMove then
      let sp := spawnTile s1
      ({ moved := true, scoreDelta := o.scoreDelta, spawnedTile := sp.1 }, sp.2)
    else
      ({ moved := true, scoreDelta := o.scoreDelta, spawnedTile := none }, s1)
  else
    ({ moved := false, scoreDelta := 0, spawnedTile := none },
     { grid := o.grid, score := s.score, rng := s.rng })

/-- `Game::reset(seed)`: zero grid, zero score, reseeded stream, then two
spawns. -/
def resetState (seed : Nat) : GameState :=
  let base : GameState :=
    { grid := List.replicate 4 (List.replicate 4 0), score := 0, rng := mtSeed seed }
  let s1 := (spawnTile base).2
  (spawnTile s1).2

/-- Folding a sequence of `applyMove` calls (each with its own direction and
spawn flag) over a state. -/
def stepMoves (s : GameState) : List (Direction × Bool) → GameState
  | [] => s
  | (d, b) :: rest => stepMoves (applyMove d b s).2 rest

/-- Per-step observation trace of a sequence of `applyMove` calls: after every
step, the grid, the score and that step's moved flag. -/
def traceMoves (s : GameState) : List (Direction × Bool) → List (List (List Int) × Int × Bool)
  | [] => []
  | (d, b) :: rest =>
    let r := applyMove d b s
    (r.2.grid, r.2.score, r.1.moved) :: traceMoves r.2 rest

/-- A state reachable from `reset(seed)` by some sequence of `applyMove`
calls. -/
def Reachable (s : GameState) : Prop :=
  ∃ seed moves, s = stepMoves (resetState seed) moves

/-- Well-formed 4x4 grid shape. -/
def Shape (g : List (List Int)) : Prop :=
  g.length = 4 ∧ ∀ row ∈ g, row.length = 4

/-- Horizontal mirror of a grid: every row reversed. -/
def mirrorH (g : List (List Int)) : List (List Int) :=
  g.map List.reverse

/-- Vertical mirror of a grid: the row order reversed. -/
def mirrorV (g : List (List Int)) : List (List Int) :=
  g.reverse

/-- Sum of all cell values of a grid. -/
def sumGrid (g : List (List Int)) : Int :=
  (g.map List.sum).sum

/-- `core2048::ScoreEntry` (`src/core/ScoreManager.hpp`). -/
structure ScoreEntry where
  score : Int
  playedAtUtc : String
  playerName : String
deriving DecidableEq

/-- The strict comparator passed to `std::stable_sort` in
`ScoreManager::sortAndTrim`: by score descending, then by timestamp string
descending. -/
def scoreBefore (lhs rhs : ScoreEntry) : Bool :=
  if lhs.score = rhs.score then decide (rhs.playedAtUtc < lhs.playedAtUtc)
  else decide (rhs.score < lhs.score)

/-- Insert an entry into an already-sorted list, after every element that is
strictly before it. -/
def insertEntry (e : ScoreEntry) : List ScoreEntry → List ScoreEntry
  | [] => [e]
  | x :: xs => if scoreBefore x e then x :: insertEntry e xs else e :: x :: xs

/-- `std::stable_sort` with the comparator `scoreBefore`, modelled as a stable
insertion sort: a stable sort by a strict weak order determines the output
sequence uniquely, so this computes the same list as the source call. -/
def stableSortEntries : List ScoreEntry → List ScoreEntry
  | [] => []
  | x :: xs => insertEntry x (stableSortEntries xs)

/-- `ScoreManager::kMaxEntries`. -/
def kMaxEntries : Nat := 5

/-- `ScoreManager::sortAndTrim`: stable sort, then resize down to
`kMaxEntries` when longer. -/
def sortAndTrim (entries : List ScoreEntry) : List ScoreEntry :=
  let sorted := stableSortEntries entries
  if kMaxEntries < sorted.length then sorted.take kMaxEntries else sorted

/-- `ScoreManager::addScore`: default an empty player name to "Oyuncu",
default a missing timestamp to the current UTC time (the impure clock
`currentUtcIso8601()` is passed in as the `now` argument), append the entry and
sort-and-trim. -/
def addScore (entries : List ScoreEntry) (score : Int) (playerName : String)
    (playedAtUtc : Option String) (now : String) : List ScoreEntry :=
  let name := if playerName = "" then "Oyuncu" else playerName
  sortAndTrim (entries ++ [{ score := score, playedAtUtc := playedAtUtc.getD now,
                             playerName := name }])

/-- `ScoreManager::bestScore`: score of the first entry, 0 when empty. -/
def bestScore (entries : List ScoreEntry) : Int :=
  match entries with
  | [] => 0
  | e :: _ => e.score

/-- Value model of the `nlohmann::json` documents handled by the score file
loader: integers are the only numbers the loader accepts, and every other
shape only matters through its type tag. -/
inductive Json where
  | null
  | boolean (b : Bool)
  | num (n : Int)
  | str (s : String)
  | arr (items : List Json)
  | obj (fields : List (String × Json))

/-- Whether the document is a JSON object (`is_object`). -/
def Json.isObj : Json → Bool
  | Json.obj _ => true
  | _ => false

/-- `contains(key)` followed by `operator[]`: the value of the first field with
the given key, when the document is an object containing it. -/
def Json.get : Json → String → Option Json
  | Json.obj fields, key => (fields.find? (fun p => p.1 = key)).map (fun p => p.2)
  | _, _ => none

/-- `is_number_integer` plus `get<int>`. -/
def Json.asInt : Json → Option Int
  | Json.num n => some n
  | _ => none

/-- `is_string` plus `get<std::string>`. -/
def Json.asStr : Json → Option String
  | Json.str s => some s
  | _ => none

/-- `parseEntry` from `ScoreManager.cpp`: reject non-objects, reject entries
without an integer `score` or a string `played_at`; default the player name to
"Oyuncu" and override it only by a non-empty string `player_name` field. -/
def parseEntry (item : Json) : Option ScoreEntry :=
  if item.isObj then
    match (item.get "score").bind Json.asInt, (item.get "played_at").bind Json.asStr with
    | some sc, some ts =>
      let name :=
        match (item.get "player_name").bind Json.asStr with
        | some candidate => if candidate = "" then "Oyuncu" else candidate
        | none => "Oyuncu"
      some { score := sc, playedAtUtc := ts, playerName := name }
    | _, _ => none
  else none

/-- Outcome of reading the score file, abstracting the filesystem and the JSON
text parser that `ScoreManager::load` calls: the file may be missing, it may
exist but fail to open or to parse, or it may parse to a document. -/
inductive FileContent where
  | missing
  | unparsable
  | parsed (root : Json)

/-- `ScoreManager::load` on the outcome of reading the file: success with an
empty list on a missing file; failure (and an empty list) on an unreadable or
unparsable file or on a document whose top level is not an object with a
`scores` array; otherwise every parseable entry is kept, the rest are skipped,
and the result is sorted and trimmed. Returns the success flag and the
in-memory list. -/
def loadScores : FileContent → Bool × List ScoreEntry
  | FileContent.missing => (true, [])
  | FileContent.unparsable => (false, [])
  | FileContent.parsed root =>
    match root.get "scores" with
    | some (Json.arr items) => (true, sortAndTrim (items.filterMap parseEntry))
    | _ => (false, [])

/-! ### Claim C1: line slide-and-merge -/

/-- The spec's description of the merge scan, stated independently of the
source: scan the compacted cells left-to-right; when element `i` equals
element `i + 1` replace both by one cell of value `2 × value`, add `2 × value`
to the score delta, and advance the scan past both source cells, so a freshly
merged cell is never merged again in the same pass. -/
def specScan : List Int → List Int × Int
  | x :: y :: rest =>
    if x = y then
      (2 * x :: (specScan rest).1, (specScan rest).2 + 2 * x)
    else
      (x :: (specScan (y :: rest)).1, (specScan (y :: rest)).2)
  | l => (l, 0)

theorem mergePass_eq_specScan : ∀ l : List Int, mergePass l = specScan l
  | [] => rfl
  | [_] => rfl
  | x :: y :: rest => by
    by_cases h : x = y
    · simp [mergePass, specScan, h, mergePass_eq_specScan rest, mul_comm]
    · simp [mergePass, specScan, h, mergePass_eq_specScan (y :: rest)]

theorem mergePass_length_le : ∀ l : List Int, (mergePass l).1.length ≤ l.length
  | [] => le_refl _
  | [_] => le_refl _
  | x :: y :: rest => by
    by_cases h : x = y
    · have := mergePass_length_le rest
      simp [mergePass, h]
      omega
    · have := mergePass_length_le (y :: rest)
      simp only [mergePass, if_neg h, List.length_cons]
      simp only [List.length_cons] at this
      omega

theorem padLine_length {l : List Int} (h : l.length ≤ 4) : (padLine l).length = 4 := by
  simp [padLine]
  omega

theorem slideAndMergeLine_length {line : List Int} (h : line.length = 4) :
    (slideAndMergeLine line).values.length = 4 := by
  have h1 : (compactLine line).length ≤ line.length := List.length_filter_le _ _
  have h2 := mergePass_length_le (compactLine line)
  exact padLine_length (by omega)

/-- C1: for every 4-element line, `slideAndMergeLine` compacts out zeros
preserving order, merges equal adjacent pairs once each (scanning past both
source cells), accumulates each merged value into the score delta, and pads
with trailing zeros to length 4; `[2,2,4,4]` yields `[4,8,0,0]` with delta 12
and `[2,2,2,2]` yields `[4,4,0,0]` with delta 8. -/
theorem claim1 :
    slideAndMergeLine [2, 2, 4, 4] =
      { values := [4, 8, 0, 0], moved := true, scoreDelta := 12 } ∧
    slideAndMergeLine [2, 2, 2, 2] =
      { values := [4, 4, 0, 0], moved := true, scoreDelta := 8 } ∧
    ∀ line : List Int, line.length = 4 →
      (slideAndMergeLine line).values =
        padLine (specScan (line.filter (fun v => v ≠ 0))).1 ∧
      (slideAndMergeLine line).scoreDelta =
        (specScan (line.filter (fun v => v ≠ 0))).2 ∧
      (slideAndMergeLine line).values.length = 4 := by
  refine ⟨by decide, by decide, ?_⟩
  intro line hlen
  refine ⟨?_, ?_, slideAndMergeLine_length hlen⟩
  · show padLine (mergePass (compactLine line)).1 = _
    rw [mergePass_eq_specScan]
    rfl
  · show (mergePass (compactLine line)).2 = _
    rw [mergePass_eq_specScan]
    rfl

theorem claim1_witness :
    (slideAndMergeLine [0, 2, 2, 4]).values =
      padLine (specScan (List.filter (fun v => v ≠ 0) [0, 2, 2, 4])).1 ∧
    (slideAndMergeLine [0, 2, 2, 4]).scoreDelta =
      (specScan (List.filter (fun v => v ≠ 0) [0, 2, 2, 4])).2 ∧
    (slideAndMergeLine [0, 2, 2, 4]).values.length = 4 :=
  claim1.2.2 [0, 2, 2, 4] (by decide)

/-! ### Claim C2: determinism -/

/-- C2: two engines constructed (or reset) with the same 32-bit seed and fed
the identical sequence of `applyMove` calls have, after every step, identical
grids, identical scores and identical per-step moved flags. The engine state
is exactly (grid, score, RNG stream), so both runs are the same function of
the seed and the move sequence. -/
theorem claim2 (seed : Nat) (moves : List (Direction × Bool)) (e1 e2 : GameState)
    (h1 : e1 = resetState seed) (h2 : e2 = resetState seed) :
    traceMoves e1 moves = traceMoves e2 moves := by
  subst h1
  subst h2
  rfl

theorem claim2_witness :
    traceMoves (resetState 42) [(Direction.Left, true), (Direction.Up, false)] =
      traceMoves (resetState 42) [(Direction.Left, true), (Direction.Up, false)] :=
  claim2 42 [(Direction.Left, true), (Direction.Up, false)]
    (resetState 42) (resetState 42) rfl rfl

/-! ### Claim C3: no-op moves have no effect -/

theorem len4_cases {α : Type} (l : List α) (h : l.length = 4) :
    ∃ a b c d, l = [a, b, c, d] := by
  match l with
  | [a, b, c, d] => exact ⟨a, b, c, d, rfl⟩
  | [] => simp at h
  | [_] => simp at h
  | [_, _] => simp at h
  | [_, _, _] => simp at h
  | _ :: _ :: _ :: _ :: _ :: t => simp at h

theorem transpose4_transpose4 {g : List (List Int)} (hs : Shape g) :
    transpose4 (transpose4 g) = g := by
  obtain ⟨hlen, hrow⟩ := hs
  obtain ⟨r0, r1, r2, r3, rfl⟩ := len4_cases g hlen
  obtain ⟨a0, a1, a2, a3, rfl⟩ := len4_cases r0 (hrow _ (by simp))
  obtain ⟨b0, b1, b2, b3, rfl⟩ := len4_cases r1 (hrow _ (by simp))
  obtain ⟨c0, c1, c2, c3, rfl⟩ := len4_cases r2 (hrow _ (by simp))
  obtain ⟨d0, d1, d2, d3, rfl⟩ := len4_cases r3 (hrow _ (by simp))
  rfl

theorem applyLine_values_of_not_moved {rev : Bool} {row : List Int}
    (h : (applyLine rev row).moved = false) : (applyLine rev row).values = row := by
  have hv : (slideAndMergeLine (if rev then row.reverse else row)).values =
      (if rev then row.reverse else row) := by
    have hm : (slideAndMergeLine (if rev then row.reverse else row)).moved = false := h
    simpa [slideAndMergeLine, decide_eq_false_iff_not, not_not] using hm
  cases rev with
  | false => simpa [applyLine] using hv
  | true =>
    show (slideAndMergeLine row.reverse).values.reverse = row
    rw [show (slideAndMergeLine (if true then row.reverse else row)).values =
          (slideAndMergeLine row.reverse).values from rfl] at hv
    simp only [if_pos trivial] at hv
    rw [hv, List.reverse_reverse]

theorem slideRows_grid_of_not_moved {rev : Bool} {g : List (List Int)}
    (h : (slideRows rev g).moved = false) : (slideRows rev g).grid = g := by
  have hall : ∀ row ∈ g, (applyLine rev row).moved = false := by
    intro row hrow
    have hmem : applyLine rev row ∈ g.map (applyLine rev) := List.mem_map_of_mem _ hrow
    have hh := h
    simp only [slideRows, List.any_eq_false] at hh
    exact Bool.eq_false_iff.mpr (hh _ hmem)
  have : (slideRows rev g).grid = g.map (fun row => (applyLine rev row).values) := by
    simp [slideRows, List.map_map, Function.comp]
  rw [this]
  calc g.map (fun row => (applyLine rev row).values)
      = g.map id := List.map_congr_left (fun row hrow =>
        applyLine_values_of_not_moved (hall row hrow))
    _ = g := List.map_id g

theorem slideGrid_grid_of_not_moved {dir : Direction} {g : List (List Int)}
    (hs : Shape g) (h : (slideGrid dir g).moved = false) : (slideGrid dir g).grid = g := by
  cases dir with
  | Left => exact slideRows_grid_of_not_moved h
  | Right => exact slideRows_grid_of_not_moved h
  | Up =>
    show transpose4 (slideRows false (transpose4 g)).grid = g
    rw [slideRows_grid_of_not_moved h]
    exact transpose4_transpose4 hs
  | Down =>
    show transpose4 (slideRows true (transpose4 g)).grid = g
    rw [slideRows_grid_of_not_moved h]
    exact transpose4_transpose4 hs

theorem applyMove_moved_eq (sp : Bool) {dir : Direction} {s : GameState} :
    (applyMove dir sp s).1.moved = (slideGrid dir s.grid).moved := by
  by_cases h : (slideGrid dir s.grid).moved
  · cases sp <;> simp [applyMove, h]
  · simp only [Bool.not_eq_true] at h
    simp [applyMove, h]

/-- C3: when no line of the board changes, `applyMove` returns
`moved = false`, `scoreDelta = 0`, `spawnedTile = none` and leaves the grid,
the score and the RNG stream exactly as they were (no RNG draw occurs). -/
theorem claim3 (dir : Direction) (sp : Bool) (s : GameState) (hs : Shape s.grid)
    (h : (applyMove dir sp s).1.moved = false) :
    applyMove dir sp s = ({ moved := false, scoreDelta := 0, spawnedTile := none }, s) := by
  have ho : (slideGrid dir s.grid).moved = false := by
    rw [← applyMove_moved_eq sp]
    exact h
  have hg : (slideGrid dir s.grid).grid = s.grid := slideGrid_grid_of_not_moved hs ho
  simp [applyMove, ho, hg]

theorem claim3_witness :
    applyMove Direction.Left true
        { grid := [[2, 4, 2, 4], [4, 2, 4, 2], [2, 4, 2, 4], [4, 2, 4, 2]],
          score := 8, rng := { mt := [], index := 0 } } =
      ({ moved := false, scoreDelta := 0, spawnedTile := none },
       { grid := [[2, 4, 2, 4], [4, 2, 4, 2], [2, 4, 2, 4], [4, 2, 4, 2]],
         score := 8, rng := { mt := [], index := 0 } }) :=
  claim3 Direction.Left true
    { grid := [[2, 4, 2, 4], [4, 2, 4, 2], [2, 4, 2, 4], [4, 2, 4, 2]],
      score := 8, rng := { mt := [], index := 0 } }
    ⟨by decide, by decide⟩ (by decide)

/-! ### Claim C4: mirror symmetry of Right/Down versus Left/Up -/

theorem applyLine_false_eq (row : List Int) : applyLine false row = slideAndMergeLine row := rfl

theorem applyLine_true_reverse (row : List Int) :
    applyLine true row.reverse =
      { values := (slideAndMergeLine row).values.reverse,
        moved := (slideAndMergeLine row).moved,
        scoreDelta := (slideAndMergeLine row).scoreDelta } := by
  simp [applyLine, List.reverse_reverse]

theorem slideRows_mirrorH_grid (g : List (List Int)) :
    (slideRows true (mirrorH g)).grid = mirrorH (slideRows false g).grid := by
  simp only [slideRows, mirrorH, List.map_map]
  apply List.map_congr_left
  intro row _
  simp [Function.comp, applyLine, List.reverse_reverse]

theorem slideRows_mirrorH_moved (g : List (List Int)) :
    (slideRows true (mirrorH g)).moved = (slideRows false g).moved := by
  induction g with
  | nil => rfl
  | cons row rest ih =>
    simp only [slideRows, mirrorH, List.map_cons, List.any_cons] at ih ⊢
    rw [ih]
    have : (applyLine true row.reverse).moved = (applyLine false row).moved := by
      simp [applyLine, List.reverse_reverse]
    rw [this]

theorem slideRows_mirrorH_delta (g : List (List Int)) :
    (slideRows true (mirrorH g)).scoreDelta = (slideRows false g).scoreDelta := by
  induction g with
  | nil => rfl
  | cons row rest ih =>
    simp only [slideRows, mirrorH, List.map_cons, List.sum_cons] at ih ⊢
    rw [ih]
    have : (applyLine true row.reverse).scoreDelta = (applyLine false row).scoreDelta := by
      simp [applyLine, List.reverse_reverse]
    rw [this]

theorem transpose4_mirrorV (g : List (List Int)) :
    transpose4 (mirrorV g) = mirrorH (transpose4 g) := by
  simp [transpose4, mirrorV, mirrorH, colOf, List.map_reverse]

theorem getD_reverse4 (row : List Int) (h : row.length = 4) :
    row.reverse.getD 0 0 = row.getD 3 0 ∧ row.reverse.getD 1 0 = row.getD 2 0 ∧
    row.reverse.getD 2 0 = row.getD 1 0 ∧ row.reverse.getD 3 0 = row.getD 0 0 := by
  obtain ⟨a, b, c, d, rfl⟩ := len4_cases row h
  exact ⟨rfl, rfl, rfl, rfl⟩

theorem transpose4_mirrorH (X : List (List Int)) (h : ∀ row ∈ X, row.length = 4) :
    transpose4 (mirrorH X) = mirrorV (transpose4 X) := by
  have h0 : colOf (mirrorH X) 0 = colOf X 3 := by
    simp only [colOf, mirrorH, List.map_map]
    exact List.map_congr_left (fun row hrow => (getD_reverse4 row (h row hrow)).1)
  have h1 : colOf (mirrorH X) 1 = colOf X 2 := by
    simp only [colOf, mirrorH, List.map_map]
    exact List.map_congr_left (fun row hrow => (getD_reverse4 row (h row hrow)).2.1)
  have h2 : colOf (mirrorH X) 2 = colOf X 1 := by
    simp only [colOf, mirrorH, List.map_map]
    exact List.map_congr_left (fun row hrow => (getD_reverse4 row (h row hrow)).2.2.1)
  have h3 : colOf (mirrorH X) 3 = colOf X 0 := by
    simp only [colOf, mirrorH, List.map_map]
    exact List.map_congr_left (fun row hrow => (getD_reverse4 row (h row hrow)).2.2.2)
  show [colOf (mirrorH X) 0, colOf (mirrorH X) 1, colOf (mirrorH X) 2, colOf (mirrorH X) 3] =
    mirrorV [colOf X 0, colOf X 1, colOf X 2, colOf X 3]
  rw [h0, h1, h2, h3]
  rfl

theorem applyLine_length {rev : Bool} {row : List Int} (h : row.length = 4) :
    (applyLine rev row).values.length = 4 := by
  cases rev with
  | false => exact slideAndMergeLine_length h
  | true =>
    show (slideAndMergeLine row.reverse).values.reverse.length = 4
    rw [List.length_reverse]
    exact slideAndMergeLine_length (by simpa using h)

theorem slideRows_row_length {rev : Bool} {g : List (List Int)}
    (h : ∀ row ∈ g, row.length = 4) :
    ∀ row ∈ (slideRows rev g).grid, row.length = 4 := by
  intro row hrow
  simp only [slideRows, List.map_map] at hrow
  obtain ⟨src, hsrc, rfl⟩ := List.mem_map.mp hrow
  exact applyLine_length (h src hsrc)

theorem transpose4_row_length {g : List (List Int)} (hlen : g.length = 4) :
    ∀ row ∈ transpose4 g, row.length = 4 := by
  intro row hrow
  simp only [transpose4, List.mem_cons, List.not_mem_nil, or_false] at hrow
  rcases hrow with rfl | rfl | rfl | rfl <;> simp [colOf, hlen]

theorem applyMove_noSpawn_grid (dir : Direction) (s : GameState) :
    (applyMove dir false s).2.grid = (slideGrid dir s.grid).grid := by
  by_cases h : (slideGrid dir s.grid).moved <;> simp [applyMove, h]

/-- C4: `applyMove(Left)` on a grid G and `applyMove(Right)` on the
horizontally mirrored grid (both without spawn) have the same moved flag and
score delta, and their result grids are horizontal mirrors of each other;
`Up`/`Down` relate the same way under the vertical mirror. -/
theorem claim4 (g : List (List Int)) (sc : Int) (rng : MTState) (hs : Shape g) :
    ((applyMove Direction.Right false { grid := mirrorH g, score := sc, rng := rng }).1.moved =
       (applyMove Direction.Left false { grid := g, score := sc, rng := rng }).1.moved ∧
     (applyMove Direction.Right false { grid := mirrorH g, score := sc, rng := rng }).1.scoreDelta =
       (applyMove Direction.Left false { grid := g, score := sc, rng := rng }).1.scoreDelta ∧
     (applyMove Direction.Right false { grid := mirrorH g, score := sc, rng := rng }).2.grid =
       mirrorH (applyMove Direction.Left false { grid := g, score := sc, rng := rng }).2.grid) ∧
    ((applyMove Direction.Down false { grid := mirrorV g, score := sc, rng := rng }).1.moved =
       (applyMove Direction.Up false { grid := g, score := sc, rng := rng }).1.moved ∧
     (applyMove Direction.Down false { grid := mirrorV g, score := sc, rng := rng }).1.scoreDelta =
       (applyMove Direction.Up false { grid := g, score := sc, rng := rng }).1.scoreDelta ∧
     (applyMove Direction.Down false { grid := mirrorV g, score := sc, rng := rng }).2.grid =
       mirrorV (applyMove Direction.Up false { grid := g, score := sc, rng := rng }).2.grid) := by
  have hTr : (transpose4 g).length = 4 := rfl
  have hTrows : ∀ row ∈ transpose4 g, row.length = 4 := transpose4_row_length hs.1
  have hRm : (slideGrid Direction.Right (mirrorH g)).moved =
      (slideGrid Direction.Left g).moved := slideRows_mirrorH_moved g
  have hRd : (slideGrid Direction.Right (mirrorH g)).scoreDelta =
      (slideGrid Direction.Left g).scoreDelta := slideRows_mirrorH_delta g
  have hRg : (slideGrid Direction.Right (mirrorH g)).grid =
      mirrorH (slideGrid Direction.Left g).grid := slideRows_mirrorH_grid g
  have hTD : transpose4 (mirrorV g) = mirrorH (transpose4 g) := transpose4_mirrorV g
  have hDm : (slideGrid Direction.Down (mirrorV g)).moved =
      (slideGrid Direction.Up g).moved := by
    show (slideRows true (transpose4 (mirrorV g))).moved =
      (slideRows false (transpose4 g)).moved
    rw [hTD]
    exact slideRows_mirrorH_moved (transpose4 g)
  have hDd : (slideGrid Direction.Down (mirrorV g)).scoreDelta =
      (slideGrid Direction.Up g).scoreDelta := by
    show (slideRows true (transpose4 (mirrorV g))).scoreDelta =
      (slideRows false (transpose4 g)).scoreDelta
    rw [hTD]
    exact slideRows_mirrorH_delta (transpose4 g)
  have hDg : (slideGrid Direction.Down (mirrorV g)).grid =
      mirrorV (slideGrid Direction.Up g).grid := by
    show transpose4 (slideRows true (transpose4 (mirrorV g))).grid =
      mirrorV (transpose4 (slideRows false (transpose4 g)).grid)
    rw [hTD, slideRows_mirrorH_grid]
    exact transpose4_mirrorH _ (slideRows_row_length hTrows)
  refine ⟨⟨?_, ?_, ?_⟩, ⟨?_, ?_, ?_⟩⟩
  · rw [applyMove_moved_eq false, applyMove_moved_eq false]
    exact hRm
  · by_cases h : (slideGrid Direction.Left g).moved
    · have h' : (slideGrid Direction.Right (mirrorH g)).moved = true := by rw [hRm]; exact h
      simp [applyMove, h, h', hRd]
    · have h' : (slideGrid Direction.Right (mirrorH g)).moved = false := by
        rw [hRm]; exact Bool.eq_false_iff.mpr h
      simp only [Bool.not_eq_true] at h
      simp [applyMove, h, h']
  · rw [applyMove_noSpawn_grid, applyMove_noSpawn_grid]
    exact hRg
  · rw [applyMove_moved_eq false, applyMove_moved_eq false]
    exact hDm
  · by_cases h : (slideGrid Direction.Up g).moved
    · have h' : (slideGrid Direction.Down (mirrorV g)).moved = true := by rw [hDm]; exact h
      simp [applyMove, h, h', hDd]
    · have h' : (slideGrid Direction.Down (mirrorV g)).moved = false := by
        rw [hDm]; exact Bool.eq_false_iff.mpr h
      simp only [Bool.not_eq_true] at h
      simp [applyMove, h, h']
  · rw [applyMove_noSpawn_grid, applyMove_noSpawn_grid]
    exact hDg

theorem claim4_witness :
    (applyMove Direction.Right false
        { grid := mirrorH [[2, 2, 0, 0], [0, 4, 4, 0], [2, 0, 0, 2], [0, 0, 0, 8]],
          score := 0, rng := { mt := [], index := 0 } }).2.grid =
      mirrorH (applyMove Direction.Left false
        { grid := [[2, 2, 0, 0], [0, 4, 4, 0], [2, 0, 0, 2], [0, 0, 0, 8]],
          score := 0, rng := { mt := [], index := 0 } }).2.grid :=
  (claim4 [[2, 2, 0, 0], [0, 4, 4, 0], [2, 0, 0, 2], [0, 0, 0, 8]] 0
    { mt := [], index := 0 } ⟨by decide, by decide⟩).1.2.2

/-! ### Claim C5: mass conservation -/

theorem mergePass_sum : ∀ l : List Int, (mergePass l).1.sum = l.sum
  | [] => rfl
  | [_] => by simp [mergePass]
  | x :: y :: rest => by
    by_cases h : x = y
    · have := mergePass_sum rest
      simp [mergePass, h, this]
      ring
    · have := mergePass_sum (y :: rest)
      simp only [List.sum_cons] at this
      simp [mergePass, h, this]

theorem compactLine_sum (line : List Int) : (compactLine line).sum = line.sum := by
  induction line with
  | nil => rfl
  | cons x rest ih =>
    by_cases h : x = 0
    · simp [compactLine, h, List.filter] at ih ⊢
      exact ih
    · simp [compactLine, List.filter, h] at ih ⊢
      rw [ih]

theorem padLine_sum (l : List Int) : (padLine l).sum = l.sum := by
  simp [padLine]

theorem slideAndMergeLine_sum (line : List Int) :
    (slideAndMergeLine line).values.sum = line.sum := by
  show (padLine (mergePass (compactLine line)).1).sum = line.sum
  rw [padLine_sum, mergePass_sum, compactLine_sum]

theorem applyLine_sum (rev : Bool) (row : List Int) :
    (applyLine rev row).values.sum = row.sum := by
  cases rev with
  | false =>
    show (slideAndMergeLine row).values.sum = row.sum
    exact slideAndMergeLine_sum row
  | true =>
    show (slideAndMergeLine row.reverse).values.reverse.sum = row.sum
    rw [List.sum_reverse, slideAndMergeLine_sum, List.sum_reverse]

theorem slideRows_sum (rev : Bool) (g : List (List Int)) :
    sumGrid (slideRows rev g).grid = sumGrid g := by
  simp only [sumGrid, slideRows, List.map_map]
  congr 1
  apply List.map_congr_left
  intro row _
  exact applyLine_sum rev row

theorem sum_transpose4 : ∀ g : List (List Int), (∀ row ∈ g, row.length = 4) →
    sumGrid (transpose4 g) = sumGrid g := by
  intro g
  induction g with
  | nil => intro; rfl
  | cons row rest ih =>
    intro h
    obtain ⟨a, b, c, d, rfl⟩ := len4_cases row (h _ (by simp))
    have hr := ih (fun r hr => h r (by simp [hr]))
    simp only [sumGrid, transpose4, colOf, List.map_cons, List.sum_cons, List.map_nil,
      List.sum_nil] at hr ⊢
    simp only [List.getD_cons_zero, List.getD_cons_succ] at hr ⊢
    linarith [hr]

/-- C5: a move without spawn leaves the sum of all cell values unchanged, for
every direction. -/
theorem claim5 (dir : Direction) (g : List (List Int)) (sc : Int) (rng : MTState)
    (hs : Shape g) :
    sumGrid (applyMove dir false { grid := g, score := sc, rng := rng }).2.grid = sumGrid g := by
  rw [applyMove_noSpawn_grid]
  show sumGrid (slideGrid dir g).grid = sumGrid g
  cases dir with
  | Left => exact slideRows_sum false g
  | Right => exact slideRows_sum true g
  | Up =>
    show sumGrid (transpose4 (slideRows false (transpose4 g)).grid) = sumGrid g
    rw [sum_transpose4 _ (slideRows_row_length (transpose4_row_length hs.1)),
      slideRows_sum, sum_transpose4 g hs.2]
  | Down =>
    show sumGrid (transpose4 (slideRows true (transpose4 g)).grid) = sumGrid g
    rw [sum_transpose4 _ (slideRows_row_length (transpose4_row_length hs.1)),
      slideRows_sum, sum_transpose4 g hs.2]

theorem claim5_witness :
    sumGrid (applyMove Direction.Up false
        { grid := [[2, 2, 0, 0], [2, 4, 4, 0], [2, 0, 0, 2], [0, 0, 4, 8]],
          score := 0, rng := { mt := [], index := 0 } }).2.grid =
      sumGrid [[2, 2, 0, 0], [2, 4, 4, 0], [2, 0, 0, 2], [0, 0, 4, 8]] :=
  claim5 Direction.Up [[2, 2, 0, 0], [2, 4, 4, 0], [2, 0, 0, 2], [0, 0, 4, 8]] 0
    { mt := [], index := 0 } ⟨by decide, by decide⟩

/-! ### Claim C6: the bounded sampler -/

/-- The RNG state after `k` raw draws. -/
def mtIter (rng : MTState) : Nat → MTState
  | 0 => rng
  | k + 1 => (mtNext (mtIter rng k)).2

/-- The `k`-th raw generator value drawn from a state (0-based). -/
def rawAt (rng : MTState) (k : Nat) : Nat :=
  (mtNext (mtIter rng k)).1

theorem mtIter_shift (rng : MTState) : ∀ j, mtIter (mtNext rng).2 j = mtIter rng (j + 1)
  | 0 => rfl
  | j + 1 => by simp [mtIter, mtIter_shift rng j]

theorem rawAt_shift (rng : MTState) (j : Nat) : rawAt (mtNext rng).2 j = rawAt rng (j + 1) := by
  simp [rawAt, mtIter_shift]

theorem nextBoundedLoop_spec (bucket limit : Nat) :
    ∀ (k : Nat) (fuel : Nat) (rng : MTState), k < fuel →
      (∀ j, j < k → limit ≤ rawAt rng j) → rawAt rng k < limit →
      nextBoundedLoop fuel rng bucket limit = (rawAt rng k / bucket, mtIter rng (k + 1)) := by
  intro k
  induction k with
  | zero =>
    intro fuel rng hf _ hacc
    match fuel, hf with
    | f + 1, _ =>
      have hacc0 : (mtNext rng).1 < limit := hacc
      simp [nextBoundedLoop, hacc0, rawAt, mtIter]
  | succ k ih =>
    intro fuel rng hf hrej hacc
    match fuel, hf with
    | f + 1, hf =>
      have hrej0 : ¬ (mtNext rng).1 < limit :=
        not_lt.mpr (hrej 0 (Nat.succ_pos k))
      have hk : k < f := Nat.lt_of_succ_lt_succ hf
      have hrej' : ∀ j, j < k → limit ≤ rawAt (mtNext rng).2 j := by
        intro j hj
        rw [rawAt_shift]
        exact hrej (j + 1) (Nat.succ_lt_succ hj)
      have hacc' : rawAt (mtNext rng).2 k < limit := by
        rw [rawAt_shift]
        exact hacc
      have := ih f (mtNext rng).2 hk hrej' hacc'
      simp only [nextBoundedLoop, hrej0, if_false]
      rw [this, rawAt_shift, mtIter_shift]

theorem nextBoundedLoop_lt {bucket limit n : Nat} (hn : 0 < n) (hb : 0 < bucket)
    (hl : limit ≤ bucket * n) :
    ∀ (fuel : Nat) (rng : MTState), (nextBoundedLoop fuel rng bucket limit).1 < n
  | 0, rng => by simpa [nextBoundedLoop] using hn
  | fuel + 1, rng => by
    by_cases h : (mtNext rng).1 < limit
    · simp only [nextBoundedLoop, h, if_true]
      exact (Nat.div_lt_iff_lt_mul hb).mpr (lt_of_lt_of_le h (by rw [mul_comm]; exact hl))
    · simp only [nextBoundedLoop, h, if_false]
      exact nextBoundedLoop_lt hn hb hl fuel (mtNext rng).2

/-- C6: for every upper bound `0 < n < 2^32` and every RNG state, the bounded
sampler returns a value below `n`, obtained by rejection sampling with
`bucketSize = range / n` and `rejectionLimit = bucketSize * n`: raw draws at
least `rejectionLimit` are discarded and the first accepted draw is divided by
`bucketSize`; a bound of 0 returns 0 without drawing. -/
theorem claim6 (rng : MTState) (n : Nat) (hn : 0 < n) (hn32 : n < 2 ^ 32) :
    (nextBounded rng n).1 < n ∧
    (∀ k, k < rejectionFuel →
      (∀ j, j < k → mtRange / n * n ≤ rawAt rng j) →
      rawAt rng k < mtRange / n * n →
      nextBounded rng n = (rawAt rng k / (mtRange / n), mtIter rng (k + 1))) ∧
    (∀ rng0 : MTState, nextBounded rng0 0 = (0, rng0)) := by
  have hne : n ≠ 0 := Nat.pos_iff_ne_zero.mp hn
  have hb : 0 < mtRange / n := Nat.div_pos (le_of_lt hn32) hn
  refine ⟨?_, ?_, fun rng0 => rfl⟩
  · show (if n = 0 then (0, rng) else
      nextBoundedLoop rejectionFuel rng (mtRange / n) (mtRange / n * n)).1 < n
    rw [if_neg hne]
    exact nextBoundedLoop_lt hn hb (le_refl _) rejectionFuel rng
  · intro k hk hrej hacc
    show (if n = 0 then (0, rng) else
      nextBoundedLoop rejectionFuel rng (mtRange / n) (mtRange / n * n)) = _
    rw [if_neg hne]
    exact nextBoundedLoop_spec (mtRange / n) (mtRange / n * n) k rejectionFuel rng hk hrej hacc

theorem claim6_witness :
    (nextBounded { mt := List.replicate 624 7, index := 0 } 10).1 < 10 ∧
    nextBounded { mt := List.replicate 624 7, index := 0 } 10 =
      (rawAt { mt := List.replicate 624 7, index := 0 } 0 / (mtRange / 10),
       mtIter { mt := List.replicate 624 7, index := 0 } 1) :=
  ⟨(claim6 { mt := List.replicate 624 7, index := 0 } 10 (by decide) (by decide)).1,
   (claim6 { mt := List.replicate 624 7, index := 0 } 10 (by decide) (by decide)).2.1 0
     (by decide) (fun j hj => absurd hj (Nat.not_lt_zero j)) (by decide)⟩

/-! ### Claim C7: spawn algorithm -/

theorem nextBounded_lt (rng : MTState) {n : Nat} (hn : 0 < n) (hn32 : n < 2 ^ 32) :
    (nextBounded rng n).1 < n := by
  have hne : n ≠ 0 := Nat.pos_iff_ne_zero.mp hn
  have hb : 0 < mtRange / n := Nat.div_pos (le_of_lt hn32) hn
  show (if n = 0 then (0, rng) else
    nextBoundedLoop rejectionFuel rng (mtRange / n) (mtRange / n * n)).1 < n
  rw [if_neg hne]
  exact nextBoundedLoop_lt hn hb (le_refl _) rejectionFuel rng

theorem emptyCellsOf_length_le (g : List (List Int)) : (emptyCellsOf g).length ≤ 16 := by
  have h4 : ∀ r : Nat, (([0, 1, 2, 3] : List Nat).filterMap (fun c =>
      if (g.getD r []).getD c 0 = 0 then some (r, c) else none)).length ≤ 4 := by
    intro r
    simpa using List.length_filterMap_le
      (fun c => if (g.getD r []).getD c 0 = 0 then some (r, c) else none) [0, 1, 2, 3]
  show ((List.range 4).flatMap _).length ≤ 16
  rw [show List.range 4 = [0, 1, 2, 3] from rfl]
  simp only [List.flatMap_cons, List.flatMap_nil, List.append_nil, List.length_append]
  have h0 := h4 0
  have h1 := h4 1
  have h2 := h4 2
  have h3 := h4 3
  omega

/-- C7: the spawn algorithm collects the empty cells in row-major order;
with none it spawns nothing and leaves the state untouched; otherwise one
bounded draw below the empty-cell count picks the cell, a second bounded draw
below 10 picks value 4 exactly when it is 0 and value 2 otherwise, the value
is written into the chosen cell, and the tile's coordinates and value are
returned. -/
theorem claim7 (s : GameState) :
    (emptyCellsOf s.grid = [] → spawnTile s = (none, s)) ∧
    (∀ cells, cells = emptyCellsOf s.grid → cells ≠ [] →
      ∀ d1, d1 = nextBounded s.rng cells.length →
      ∀ d2, d2 = nextBounded d1.2 10 →
      d1.1 < cells.length ∧
      spawnTile s =
        (some { row := (cells.getD d1.1 (0, 0)).1, col := (cells.getD d1.1 (0, 0)).2,
                value := if d2.1 = 0 then 4 else 2 },
         { grid := setCell s.grid (cells.getD d1.1 (0, 0)).1 (cells.getD d1.1 (0, 0)).2
             (if d2.1 = 0 then 4 else 2),
           score := s.score, rng := d2.2 })) := by
  constructor
  · intro h
    simp [spawnTile, h]
  · rintro cells rfl hne d1 rfl d2 rfl
    have hlen : 0 < (emptyCellsOf s.grid).length := List.length_pos.mpr hne
    have hlt : (nextBounded s.rng (emptyCellsOf s.grid).length).1 <
        (emptyCellsOf s.grid).length :=
      nextBounded_lt s.rng hlen
        (lt_of_le_of_lt (emptyCellsOf_length_le s.grid) (by norm_num))
    refine ⟨hlt, ?_⟩
    have hemp : (emptyCellsOf s.grid).isEmpty = false := by
      rcases h : emptyCellsOf s.grid with _ | ⟨c, rest⟩
      · exact absurd h hne
      · rfl
    simp [spawnTile, hemp]

theorem claim7_witness :
    (∀ d1, d1 = nextBounded { mt := List.replicate 624 7, index := 0 }
        (emptyCellsOf [[2, 4, 2, 0], [4, 2, 4, 2], [2, 4, 2, 4], [4, 2, 4, 2]]).length →
      ∀ d2, d2 = nextBounded d1.2 10 →
      d1.1 < (emptyCellsOf [[2, 4, 2, 0], [4, 2, 4, 2], [2, 4, 2, 4], [4, 2, 4, 2]]).length ∧
      spawnTile { grid := [[2, 4, 2, 0], [4, 2, 4, 2], [2, 4, 2, 4], [4, 2, 4, 2]],
                  score := 0, rng := { mt := List.replicate 624 7, index := 0 } } =
        (some { row := ((emptyCellsOf [[2, 4, 2, 0], [4, 2, 4, 2], [2, 4, 2, 4],
                  [4, 2, 4, 2]]).getD d1.1 (0, 0)).1,
                col := ((emptyCellsOf [[2, 4, 2, 0], [4, 2, 4, 2], [2, 4, 2, 4],
                  [4, 2, 4, 2]]).getD d1.1 (0, 0)).2,
                value := if d2.1 = 0 then 4 else 2 },
         { grid := setCell [[2, 4, 2, 0], [4, 2, 4, 2], [2, 4, 2, 4], [4, 2, 4, 2]]
             ((emptyCellsOf [[2, 4, 2, 0], [4, 2, 4, 2], [2, 4, 2, 4],
               [4, 2, 4, 2]]).getD d1.1 (0, 0)).1
             ((emptyCellsOf [[2, 4, 2, 0], [4, 2, 4, 2], [2, 4, 2, 4],
               [4, 2, 4, 2]]).getD d1.1 (0, 0)).2
             (if d2.1 = 0 then 4 else 2),
           score := 0, rng := d2.2 })) :=
  (claim7 { grid := [[2, 4, 2, 0], [4, 2, 4, 2], [2, 4, 2, 4], [4, 2, 4, 2]],
            score := 0, rng := { mt := List.replicate 624 7, index := 0 } }).2
    (emptyCellsOf [[2, 4, 2, 0], [4, 2, 4, 2], [2, 4, 2, 4], [4, 2, 4, 2]]) rfl (by decide)

/-! ### Claim C8: power-of-two invariant on reachable states -/

/-- A legal cell value: 0 (empty) or a power of two at least 2. -/
def IsTileVal (v : Int) : Prop :=
  v = 0 ∨ ∃ k : Nat, 1 ≤ k ∧ v = 2 ^ k

/-- Every cell of the grid is a legal cell value. -/
def cellsOK (g : List (List Int)) : Prop :=
  ∀ row ∈ g, ∀ v ∈ row, IsTileVal v

theorem IsTileVal.double {v : Int} (h : IsTileVal v) : IsTileVal (v * 2) := by
  rcases h with rfl | ⟨k, hk, rfl⟩
  · exact Or.inl (by ring)
  · exact Or.inr ⟨k + 1, by omega, by ring⟩

theorem mergePass_tiles : ∀ l : List Int, (∀ v ∈ l, IsTileVal v) →
    ∀ v ∈ (mergePass l).1, IsTileVal v
  | [] => fun _ v hv => by simp [mergePass] at hv
  | [x] => fun h v hv => by
    simp [mergePass] at hv
    exact hv ▸ h x (by simp)
  | x :: y :: rest => fun h v hv => by
    by_cases hxy : x = y
    · subst hxy
      rw [show mergePass (x :: x :: rest) =
          (x * 2 :: (mergePass rest).1, (mergePass rest).2 + x * 2) from by
        simp [mergePass]] at hv
      rcases List.mem_cons.mp hv with h1 | h1
      · rw [h1]
        exact (h x (by simp)).double
      · exact mergePass_tiles rest (fun w hw => h w (by simp [hw])) v h1
    · rw [show mergePass (x :: y :: rest) =
          (x :: (mergePass (y :: rest)).1, (mergePass (y :: rest)).2) from by
        simp [mergePass, hxy]] at hv
      rcases List.mem_cons.mp hv with h1 | h1
      · rw [h1]
        exact h x (by simp)
      · exact mergePass_tiles (y :: rest)
          (fun w hw => h w (List.mem_cons_of_mem x hw)) v h1

theorem padLine_tiles {l : List Int} (h : ∀ v ∈ l, IsTileVal v) :
    ∀ v ∈ padLine l, IsTileVal v := by
  intro v hv
  rcases List.mem_append.mp hv with hv | hv
  · exact h v hv
  · exact Or.inl (List.eq_of_mem_replicate hv)

theorem slideAndMergeLine_tiles {line : List Int} (h : ∀ v ∈ line, IsTileVal v) :
    ∀ v ∈ (slideAndMergeLine line).values, IsTileVal v := by
  have hc : ∀ v ∈ compactLine line, IsTileVal v := by
    intro v hv
    exact h v (List.mem_filter.mp hv).1
  exact padLine_tiles (mergePass_tiles _ hc)

theorem applyLine_tiles {rev : Bool} {row : List Int} (h : ∀ v ∈ row, IsTileVal v) :
    ∀ v ∈ (applyLine rev row).values, IsTileVal v := by
  cases rev with
  | false => exact slideAndMergeLine_tiles h
  | true =>
    intro v hv
    have hv' : v ∈ (slideAndMergeLine row.reverse).values := List.mem_reverse.mp hv
    exact slideAndMergeLine_tiles (fun w hw => h w (List.mem_reverse.mp hw)) v hv'

theorem slideRows_tiles {rev : Bool} {g : List (List Int)} (h : cellsOK g) :
    cellsOK (slideRows rev g).grid := by
  intro row hrow
  simp only [slideRows, List.map_map] at hrow
  obtain ⟨src, hsrc, rfl⟩ := List.mem_map.mp hrow
  exact applyLine_tiles (h src hsrc)

theorem getD_mem_or {α : Type} : ∀ (l : List α) (j : Nat) (d : α),
    l.getD j d ∈ l ∨ l.getD j d = d
  | [], _, _ => Or.inr rfl
  | x :: rest, 0, _ => Or.inl (List.mem_cons_self x rest)
  | x :: rest, j + 1, d => by
    rcases getD_mem_or rest j d with h | h
    · exact Or.inl (List.mem_cons_of_mem x (by simpa [List.getD_cons_succ] using h))
    · exact Or.inr (by simpa [List.getD_cons_succ] using h)

theorem transpose4_tiles {g : List (List Int)} (h : cellsOK g) : cellsOK (transpose4 g) := by
  have hcol : ∀ j, ∀ v ∈ colOf g j, IsTileVal v := by
    intro j v hv
    obtain ⟨row, hrow, rfl⟩ := List.mem_map.mp hv
    rcases getD_mem_or row j 0 with hm | hz
    · exact h row hrow _ hm
    · exact Or.inl hz
  intro row hrow
  simp only [transpose4, List.mem_cons, List.not_mem_nil, or_false] at hrow
  rcases hrow with rfl | rfl | rfl | rfl
  · exact hcol 0
  · exact hcol 1
  · exact hcol 2
  · exact hcol 3

theorem slideGrid_tiles {dir : Direction} {g : List (List Int)} (h : cellsOK g) :
    cellsOK (slideGrid dir g).grid := by
  cases dir with
  | Left => exact slideRows_tiles h
  | Right => exact slideRows_tiles h
  | Up => exact transpose4_tiles (slideRows_tiles (transpose4_tiles h))
  | Down => exact transpose4_tiles (slideRows_tiles (transpose4_tiles h))

theorem setCell_tiles {g : List (List Int)} {r c : Nat} {v : Int}
    (h : cellsOK g) (hv : IsTileVal v) : cellsOK (setCell g r c v) := by
  intro row hrow
  rcases List.mem_or_eq_of_mem_set hrow with hrow' | rfl
  · exact h row hrow'
  · intro w hw
    rcases List.mem_or_eq_of_mem_set hw with hw' | rfl
    · rcases getD_mem_or g r [] with hm | hz
      · exact h _ hm w hw'
      · rw [hz] at hw'
        exact absurd hw' (List.not_mem_nil w)
    · exact hv

theorem spawnTile_tiles {s : GameState} (h : cellsOK s.grid) :
    cellsOK (spawnTile s).2.grid := by
  by_cases he : (emptyCellsOf s.grid).isEmpty
  · simpa [spawnTile, he] using h
  · have hval : IsTileVal (if (nextBounded (nextBounded s.rng
        (emptyCellsOf s.grid).length).2 10).1 = 0 then (4 : Int) else 2) := by
      by_cases h0 : (nextBounded (nextBounded s.rng
          (emptyCellsOf s.grid).length).2 10).1 = 0
      · simp only [h0, if_pos rfl]
        exact Or.inr ⟨2, by omega, by norm_num⟩
      · simp only [if_neg h0]
        exact Or.inr ⟨1, le_refl 1, by norm_num⟩
    simpa [spawnTile, he] using setCell_tiles h hval

theorem applyMove_tiles {dir : Direction} {sp : Bool} {s : GameState}
    (h : cellsOK s.grid) : cellsOK (applyMove dir sp s).2.grid := by
  have ho : cellsOK (slideGrid dir s.grid).grid := slideGrid_tiles h
  by_cases hm : (slideGrid dir s.grid).moved
  · have hsp := @spawnTile_tiles
      { grid := (slideGrid dir s.grid).grid,
        score := s.score + (slideGrid dir s.grid).scoreDelta, rng := s.rng } ho
    cases sp with
    | false => simpa [applyMove, hm] using ho
    | true => simpa [applyMove, hm] using hsp
  · simp only [Bool.not_eq_true] at hm
    simpa [applyMove, hm] using ho

theorem stepMoves_tiles {s : GameState} (h : cellsOK s.grid)
    (moves : List (Direction × Bool)) : cellsOK (stepMoves s moves).grid := by
  induction moves generalizing s with
  | nil => exact h
  | cons m rest ih =>
    obtain ⟨d, b⟩ := m
    show cellsOK (stepMoves (applyMove d b s).2 rest).grid
    exact ih (applyMove_tiles h)

theorem resetState_eq (seed : Nat) :
    resetState seed = (spawnTile (spawnTile
      { grid := List.replicate 4 (List.replicate 4 0), score := 0,
        rng := mtSeed seed }).2).2 := by
  unfold resetState
  rfl

theorem resetState_tiles (seed : Nat) : cellsOK (resetState seed).grid := by
  have h0 : cellsOK (List.replicate 4 (List.replicate 4 0)) := by
    intro row hrow v hv
    rw [List.eq_of_mem_replicate hrow] at hv
    exact Or.inl (List.eq_of_mem_replicate hv)
  rw [resetState_eq]
  exact spawnTile_tiles (spawnTile_tiles h0)

/-- Every cell of the grid is non-negative, with 0 denoting empty and every
non-zero value a power of two at least 2. -/
def LegalGrid (g : List (List Int)) : Prop :=
  ∀ row ∈ g, ∀ v ∈ row, 0 ≤ v ∧ (v ≠ 0 → ∃ k : Nat, 1 ≤ k ∧ v = 2 ^ k)

/-- C8: in every state reachable from `reset(seed)` by `applyMove` calls,
every cell is non-negative, 0 denotes empty, and every non-zero cell is a
power of two at least 2. -/
theorem claim8 (s : GameState) (h : Reachable s) : LegalGrid s.grid := by
  obtain ⟨seed, moves, rfl⟩ := h
  have hOK : cellsOK (stepMoves (resetState seed) moves).grid :=
    stepMoves_tiles (resetState_tiles seed) moves
  intro row hrow v hv
  rcases hOK row hrow v hv with rfl | ⟨k, hk, rfl⟩
  · exact ⟨le_refl 0, fun hne => absurd rfl hne⟩
  · refine ⟨pow_nonneg (by norm_num) k, fun _ => ⟨k, hk, rfl⟩⟩

theorem claim8_witness :
    LegalGrid (stepMoves (resetState 3) [(Direction.Left, true)]).grid :=
  claim8 (stepMoves (resetState 3) [(Direction.Left, true)]) ⟨3, [(Direction.Left, true)], rfl⟩

/-! ### Claim C9: leaderboard insertion, ordering and truncation -/

theorem scoreBefore_false_iff (x y : ScoreEntry) :
    scoreBefore x y = false ↔
      (x.score < y.score ∨ (x.score = y.score ∧ ¬ y.playedAtUtc < x.playedAtUtc)) := by
  by_cases h : x.score = y.score
  · simp [scoreBefore, h, lt_irrefl]
  · simp only [scoreBefore, if_neg h, decide_eq_false_iff_not, not_lt]
    constructor
    · intro hle
      exact Or.inl (lt_of_le_of_ne hle h)
    · rintro (hlt | ⟨he, _⟩)
      · exact le_of_lt hlt
      · exact absurd he h

theorem scoreBefore_asymm {x y : ScoreEntry} (h : scoreBefore x y = true) :
    scoreBefore y x = false := by
  rw [scoreBefore_false_iff]
  by_cases he : x.score = y.score
  · simp only [scoreBefore, if_pos he, decide_eq_true_eq] at h
    exact Or.inr ⟨he.symm, lt_asymm h⟩
  · simp only [scoreBefore, if_neg he, decide_eq_true_eq] at h
    exact Or.inl h

theorem notBefore_trans {x y e : ScoreEntry} (h1 : scoreBefore x e = false)
    (h2 : scoreBefore y x = false) : scoreBefore y e = false := by
  rw [scoreBefore_false_iff] at h1 h2 ⊢
  rcases h1 with h1 | ⟨h1e, h1t⟩ <;> rcases h2 with h2 | ⟨h2e, h2t⟩
  · exact Or.inl (by omega)
  · exact Or.inl (by omega)
  · exact Or.inl (by omega)
  · exact Or.inr ⟨by omega, not_lt.mpr (le_trans (not_lt.mp h2t) (not_lt.mp h1t))⟩

theorem mem_insertEntry {v e : ScoreEntry} : ∀ l : List ScoreEntry,
    v ∈ insertEntry e l ↔ v = e ∨ v ∈ l
  | [] => by simp [insertEntry]
  | x :: xs => by
    by_cases h : scoreBefore x e
    · rw [show insertEntry e (x :: xs) = x :: insertEntry e xs from by
        simp [insertEntry, h]]
      simp only [List.mem_cons, mem_insertEntry xs]
      tauto
    · rw [show insertEntry e (x :: xs) = e :: x :: xs from by
        simp [insertEntry, h]]
      simp only [List.mem_cons]

theorem pairwise_insertEntry {e : ScoreEntry} : ∀ {l : List ScoreEntry},
    l.Pairwise (fun a b => scoreBefore b a = false) →
    (insertEntry e l).Pairwise (fun a b => scoreBefore b a = false)
  | [], _ => by simp [insertEntry]
  | x :: xs, h => by
    rcases List.pairwise_cons.mp h with ⟨hx, hxs⟩
    by_cases hxe : scoreBefore x e
    · rw [show insertEntry e (x :: xs) = x :: insertEntry e xs from by
        simp [insertEntry, hxe]]
      refine List.pairwise_cons.mpr ⟨?_, pairwise_insertEntry hxs⟩
      intro y hy
      rcases (mem_insertEntry xs).mp hy with rfl | hy'
      · exact scoreBefore_asymm hxe
      · exact hx y hy'
    · rw [show insertEntry e (x :: xs) = e :: x :: xs from by
        simp [insertEntry, hxe]]
      refine List.pairwise_cons.mpr ⟨?_, h⟩
      intro y hy
      rcases List.mem_cons.mp hy with rfl | hy'
      · exact Bool.eq_false_iff.mpr hxe
      · exact notBefore_trans (Bool.eq_false_iff.mpr hxe) (hx y hy')

theorem pairwise_stableSort : ∀ l : List ScoreEntry,
    (stableSortEntries l).Pairwise (fun a b => scoreBefore b a = false)
  | [] => List.Pairwise.nil
  | _ :: xs => pairwise_insertEntry (pairwise_stableSort xs)

theorem pairwise_sortAndTrim (l : List ScoreEntry) :
    (sortAndTrim l).Pairwise (fun a b => scoreBefore b a = false) := by
  unfold sortAndTrim
  by_cases h : kMaxEntries < (stableSortEntries l).length
  · simp only [if_pos h]
    exact (pairwise_stableSort l).sublist (List.take_sublist _ _)
  · simp only [if_neg h]
    exact pairwise_stableSort l

theorem sortAndTrim_length_le (l : List ScoreEntry) : (sortAndTrim l).length ≤ 5 := by
  unfold sortAndTrim kMaxEntries
  by_cases h : 5 < (stableSortEntries l).length
  · simp [h, List.length_take]
  · simp only [if_neg h]
    omega

/-- C9: `addScore` appends the new entry (empty player names become the
placeholder, a missing timestamp becomes the supplied clock value), re-sorts
descending by score with descending timestamp tie-break, and truncates to at
most 5 entries; `bestScore` is the first entry's score, or 0 when empty;
inserting the 7 scores 40, 90, 10, 70, 20, 50, 80 leaves exactly 90, 80, 70,
50, 40 in that order with best score 90. -/
theorem claim9 :
    ((([40, 90, 10, 70, 20, 50, 80] : List Int).foldl
        (fun acc sc => addScore acc sc "" none "2024-01-01T00:00:00Z") []).map
        (fun e => e.score) = [90, 80, 70, 50, 40] ∧
      bestScore (([40, 90, 10, 70, 20, 50, 80] : List Int).foldl
        (fun acc sc => addScore acc sc "" none "2024-01-01T00:00:00Z") []) = 90) ∧
    (∀ (entries : List ScoreEntry) (sc : Int) (name : String)
        (ts : Option String) (now : String),
      addScore entries sc name ts now =
        sortAndTrim (entries ++
          [{ score := sc, playedAtUtc := ts.getD now,
             playerName := if name = "" then "Oyuncu" else name }]) ∧
      (addScore entries sc name ts now).length ≤ 5 ∧
      (addScore entries sc name ts now).Pairwise
        (fun a b => scoreBefore b a = false)) ∧
    (bestScore [] = 0 ∧ ∀ (e : ScoreEntry) (rest : List ScoreEntry),
      bestScore (e :: rest) = e.score) := by
  refine ⟨⟨by decide, by decide⟩, ?_, rfl, fun e rest => rfl⟩
  intro entries sc name ts now
  exact ⟨rfl, sortAndTrim_length_le _, pairwise_sortAndTrim _⟩

theorem claim9_witness :
    addScore [] 7 "" (some "2025-05-05T05:05:05Z") "x" =
      sortAndTrim ([] ++
        [{ score := 7,
           playedAtUtc := (some "2025-05-05T05:05:05Z").getD "x",
           playerName := if "" = "" then "Oyuncu" else "" }]) ∧
    (addScore [] 7 "" (some "2025-05-05T05:05:05Z") "x").length ≤ 5 ∧
    (addScore [] 7 "" (some "2025-05-05T05:05:05Z") "x").Pairwise
      (fun a b => scoreBefore b a = false) :=
  claim9.2.1 [] 7 "" (some "2025-05-05T05:05:05Z") "x"

/-! ### Claim C10: score-file loading -/

theorem loadScores_no_array {root : Json}
    (h : ∀ items : List Json, root.get "scores" ≠ some (Json.arr items)) :
    loadScores (FileContent.parsed root) = (false, []) := by
  rcases hg : root.get "scores" with _ | j
  · simp [loadScores, hg]
  · cases j with
    | arr items => exact absurd hg (h items)
    | null => simp [loadScores, hg]
    | boolean b => simp [loadScores, hg]
    | num n => simp [loadScores, hg]
    | str s => simp [loadScores, hg]
    | obj fields => simp [loadScores, hg]

/-- C10: loading a missing file succeeds with an empty list; an unreadable or
unparsable file, or a document without a top-level `scores` array, fails with
an empty list; an entry without an integer score or a string timestamp is
skipped; an entry without a player name is kept under the placeholder name;
and a successful load applies the same sort-and-trim as `addScore`. -/
theorem claim10 :
    loadScores FileContent.missing = (true, []) ∧
    loadScores FileContent.unparsable = (false, []) ∧
    (∀ root : Json, (∀ items : List Json, root.get "scores" ≠ some (Json.arr items)) →
      loadScores (FileContent.parsed root) = (false, [])) ∧
    (∀ (root : Json) (items : List Json), root.get "scores" = some (Json.arr items) →
      loadScores (FileContent.parsed root) =
        (true, sortAndTrim (items.filterMap parseEntry))) ∧
    (∀ item : Json,
      (item.get "score").bind Json.asInt = none ∨
        (item.get "played_at").bind Json.asStr = none →
      parseEntry item = none) ∧
    (∀ (item : Json) (sc : Int) (ts : String), item.isObj = true →
      (item.get "score").bind Json.asInt = some sc →
      (item.get "played_at").bind Json.asStr = some ts →
      (item.get "player_name").bind Json.asStr = none →
      parseEntry item = some { score := sc, playedAtUtc := ts, playerName := "Oyuncu" }) := by
  refine ⟨rfl, rfl, fun root h => loadScores_no_array h, ?_, ?_, ?_⟩
  · intro root items h
    simp [loadScores, h]
  · intro item h
    by_cases ho : item.isObj
    · cases hsc : (item.get "score").bind Json.asInt with
      | none => simp [parseEntry, ho, hsc]
      | some sc =>
        rcases h with h | h
        · exact absurd hsc (h ▸ (by simp))
        · simp [parseEntry, ho, hsc, h]
    · simp only [Bool.not_eq_true] at ho
      simp [parseEntry, ho]
  · intro item sc ts ho hsc hts hpn
    simp [parseEntry, ho, hsc, hts, hpn]

theorem claim10_witness :
    parseEntry (Json.obj [("score", Json.num 12),
        ("played_at", Json.str "2024-03-03T10:00:00Z")]) =
      some { score := 12, playedAtUtc := "2024-03-03T10:00:00Z",
             playerName := "Oyuncu" } :=
  claim10.2.2.2.2.2 (Json.obj [("score", Json.num 12),
      ("played_at", Json.str "2024-03-03T10:00:00Z")]) 12 "2024-03-03T10:00:00Z"
    rfl rfl rfl rfl

end Core2048
